import Mathlib

/-!
Shallow embedding of the core of the `second_opinion` mmb certificate
verifier (`src/mmb/mod.rs`): the type/sort bit-codec, the stack-item model,
the binary header reader, and the per-declaration orchestration
(`load_args`, `verify1`, `verify_termdef`, `verify_assert`).

Machine integers (`u64`, `u8`) are modelled as `Nat`; all bit operations
(`&&&`, `^^^`, `>>>`) are the Nat bitwise operations, and 64-bit logical
negation is modelled explicitly by `not64`.  Fallible Rust code returning
`Res<T>` is modelled as `Except VErr T`; a Rust panic (a failed `assert!`
or a `.unwrap()` of an `Err`) is modelled as the distinguished error
constructor `VErr.abort`, while an `Err` value returned to the caller is
`VErr.fmt`.  Each individual check site carries a distinct message string,
mirroring the per-site file/line context carried by the `make_sure!` and
`none_err!` macros.
-/

/-- Error model: `fmt` is a `VerifErr` value returned to the caller
(`make_sure!`, `none_err!`, parse errors); `abort` is a Rust panic
(a failed `assert!` / `assert_eq!` or `.unwrap()` on an `Err`). -/
inductive VErr where
  | fmt : String → VErr
  | abort : String → VErr
deriving DecidableEq, Repr

/-- `Res<T>` from `util.rs`. -/
abbrev Res (α : Type) := Except VErr α

/-- `MM0B_MAGIC` (`mod.rs` line 27). -/
def MM0B_MAGIC : Nat := 0x42304D4D

/-- Sort modifier flag bits (`mod.rs` lines 32-35). -/
def SORT_PURE : Nat := 1

def SORT_STRICT : Nat := 2

def SORT_PROVABLE : Nat := 4

def SORT_FREE : Nat := 8

/-- bound mask: bit 63 (`mod.rs` line 38). -/
def TYPE_BOUND_MASK : Nat := 1 <<< 63

/-- deps mask: bits 0-55 (`mod.rs` line 42). -/
def TYPE_DEPS_MASK : Nat := (1 <<< 56) - 1

/-- 64-bit logical negation `!x` on a `u64`, as used in
`arg.deps().unwrap() & !(self.next_bv - 1)`. -/
def not64 (x : Nat) : Nat := x ^^^ (2 ^ 64 - 1)

/-- Modelled from the spec: `Type` from `util.rs` (not under `src/`):
"a 64-bit value with three logical fields — bit 63: is a bound variable;
bits 0-55: a dependency bitmask ... or, for a bound variable itself, a
single set bit identifying its own slot (bound digit)"; the remaining
bits 56-62 hold the sort index, compared by `sorts_compatible` and read
by `arg.sort()`. -/
structure Ty where
  inner : Nat
deriving DecidableEq, Repr

/-- Modelled from the spec: `Type::is_bound` tests the bit-63 flag. -/
def Ty.is_bound (t : Ty) : Bool := t.inner &&& TYPE_BOUND_MASK != 0

/-- Modelled from the spec: `Type::sort` reads the sort index bits 56-62. -/
def Ty.sort (t : Ty) : Nat := (t.inner >>> 56) &&& 0x7F

/-- Modelled from the spec: `Type::deps` "derives the dependency mask via
the codec"; it is the low 56 bits, and fails for a bound variable (whose
low bits are its bound digit, not a dependency mask) — `low_bits` relies
on exactly this failure condition. -/
def Ty.deps (t : Ty) : Res Nat :=
  if t.is_bound then .error (.fmt "deps called on a bound Type")
  else .ok (t.inner &&& TYPE_DEPS_MASK)

/-- Modelled from the spec: `Type::bound_digit` derives the bound-digit
value (the low 56 bits of a bound variable) and fails for a non-bound
value. -/
def Ty.bound_digit (t : Ty) : Res Nat :=
  if t.is_bound then .ok (t.inner &&& TYPE_DEPS_MASK)
  else .error (.fmt "bound_digit called on an unbound Type")

/-- `sorts_compatible` (`mod.rs` lines 48-55): true if a value with type
`from_` can be cast to a value of type `to`. -/
def sorts_compatible (from_ to_ : Ty) : Bool :=
  let diff := from_.inner ^^^ to_.inner
  let c1 := diff &&& not64 TYPE_DEPS_MASK == 0
  let c2 := diff &&& not64 TYPE_BOUND_MASK &&& not64 TYPE_DEPS_MASK == 0
  let c3 := from_.inner &&& TYPE_BOUND_MASK != 0
  c1 || (c2 && c3)

mutual
/-- `MmbExpr` (`mod.rs` lines 58-68): expression node shapes. -/
inductive MmbExpr where
  | var : Nat → Ty → MmbExpr
  | app : Nat → List MmbItem → Ty → MmbExpr

/-- `MmbItem` (`mod.rs` lines 72-77): the stack/heap element. -/
inductive MmbItem where
  | expr : MmbExpr → MmbItem
  | proof : MmbItem → MmbItem
  | conv : MmbItem → MmbItem → MmbItem
  | coConv : MmbItem → MmbItem → MmbItem
end

/-- Whether an `MmbItem` is the `Expr` variant. -/
def MmbItem.is_expr : MmbItem → Bool
  | .expr _ => true
  | _ => false

/-- Whether an `MmbItem` is the `Proof` variant. -/
def MmbItem.is_proof_item : MmbItem → Bool
  | .proof _ => true
  | _ => false

/-- `MmbItem::get_ty` (`mod.rs` lines 80-86). -/
def MmbItem.get_ty : MmbItem → Res Ty
  | .expr (.var _ ty) => .ok ty
  | .expr (.app _ _ ty) => .ok ty
  | _ => .error (.fmt "Cannot get type from a non-expr MmbItem")

/-- `MmbItem::get_deps` (`mod.rs` lines 88-92). -/
def MmbItem.get_deps (x : MmbItem) : Res Ty :=
  match x.get_ty with
  | .error e => .error e
  | .ok ty =>
    match ty.deps with
    | .error e => .error e
    | .ok d => .ok ⟨d⟩

/-- `MmbItem::get_bound_digit` (`mod.rs` lines 94-98). -/
def MmbItem.get_bound_digit (x : MmbItem) : Res Ty :=
  match x.get_ty with
  | .error e => .error e
  | .ok ty =>
    match ty.bound_digit with
    | .error e => .error e
    | .ok d => .ok ⟨d⟩

/-- `MmbItem::low_bits` (`mod.rs` lines 100-102):
`self.get_deps().or(self.get_bound_digit()).unwrap()`.  The `.unwrap()`
panics when both results are `Err`; the panic is modelled as `none`. -/
def MmbItem.low_bits (x : MmbItem) : Option Ty :=
  match x.get_deps with
  | .ok d => some d
  | .error _ =>
    match x.get_bound_digit with
    | .ok b => some b
    | .error _ => none

/-- `Header` (`mod.rs` lines 106-131). -/
structure Header where
  magic : Nat
  version : Nat
  num_sorts : Nat
  reserved : Nat
  num_terms : Nat
  num_thms : Nat
  terms_start : Nat
  thms_start : Nat
  proof_stream_start : Nat
  reserved2 : Nat
  index_start : Nat
  sort_data_start : Nat
deriving DecidableEq, Repr

/-- Modelled from the spec: `parse_u8` from `util.rs` (not under `src/`):
consume one byte of the buffer, failing if the buffer is empty. -/
def parse_u8 : List Nat → Res (Nat × List Nat)
  | [] => .error (.fmt "parse_u8: not enough bytes")
  | b :: rest => .ok (b % 256, rest)

/-- Modelled from the spec: `parse_u16` consumes 2 bytes, little-endian. -/
def parse_u16 (l : List Nat) : Res (Nat × List Nat) :=
  match parse_u8 l with
  | .error e => .error e
  | .ok (b0, l) =>
    match parse_u8 l with
    | .error e => .error e
    | .ok (b1, l) => .ok (b0 + b1 * 2 ^ 8, l)

/-- Modelled from the spec: `parse_u32` consumes 4 bytes, little-endian. -/
def parse_u32 (l : List Nat) : Res (Nat × List Nat) :=
  match parse_u16 l with
  | .error e => .error e
  | .ok (w0, l) =>
    match parse_u16 l with
    | .error e => .error e
    | .ok (w1, l) => .ok (w0 + w1 * 2 ^ 16, l)

/-- Modelled from the spec: `parse_u64` consumes 8 bytes, little-endian. -/
def parse_u64 (l : List Nat) : Res (Nat × List Nat) :=
  match parse_u32 l with
  | .error e => .error e
  | .ok (w0, l) =>
    match parse_u32 l with
    | .error e => .error e
    | .ok (w1, l) => .ok (w0 + w1 * 2 ^ 32, l)

/-- `u32::try_from` wrapped in `conv_err!` (`mod.rs` line 165): a failed
conversion is returned as an error, not a panic. -/
def conv_u32 (n : Nat) : Res Nat :=
  if n < 2 ^ 32 then .ok n else .error (.fmt "conv_err: u32 try_from failed")

/-- `parse_header` (`mod.rs` lines 152-180).  Note that the magic check is
`assert_eq!` — a mismatch is a panic (`VErr.abort`), not a returned
error — while all truncation failures are returned errors from the
`parse_*` calls. -/
def parse_header (mmb : List Nat) : Res Header :=
  match parse_u32 mmb with
  | .error e => .error e
  | .ok (magic, source) =>
    if magic ≠ MM0B_MAGIC then .error (.abort "assert_eq failed: magic mismatch")
    else
    match parse_u8 source with
    | .error e => .error e
    | .ok (version, source) =>
    match parse_u8 source with
    | .error e => .error e
    | .ok (num_sorts, source) =>
    match parse_u16 source with
    | .error e => .error e
    | .ok (reserved, source) =>
    match parse_u32 source with
    | .error e => .error e
    | .ok (num_terms, source) =>
    match parse_u32 source with
    | .error e => .error e
    | .ok (num_thms, source) =>
    match parse_u32 source with
    | .error e => .error e
    | .ok (terms_start, source) =>
    match parse_u32 source with
    | .error e => .error e
    | .ok (thms_start, source) =>
    match parse_u32 source with
    | .error e => .error e
    | .ok (proof_stream_start, source) =>
    match parse_u32 source with
    | .error e => .error e
    | .ok (reserved2, source) =>
    match parse_u64 source with
    | .error e => .error e
    | .ok (index_start, source) =>
    match conv_u32 (mmb.length - source.length) with
    | .error e => .error e
    | .ok (sort_data_start) =>
      .ok { magic, version, num_sorts, reserved, num_terms, num_thms,
            terms_start, thms_start, proof_stream_start, reserved2,
            index_start, sort_data_start }

/-- Modelled from the spec: `SortMods` wraps the one sort-flag byte
(`get_sort_mods(...).inner` is dereferenced in `load_args`). -/
structure SortMods where
  inner : Nat
deriving DecidableEq, Repr

/-- Modelled from the spec: `StmtCmd` from `mmb/stmt.rs` (not under
`src/`): the declaration kinds dispatched by `verify1`.  Only the
constructor and the optional declaration number are used by the core;
further fields are omitted. -/
inductive StmtCmd where
  | sort : Option Nat → StmtCmd
  | termDef : Option Nat → StmtCmd
  | ax : Option Nat → StmtCmd
  | thm : Option Nat → StmtCmd
deriving DecidableEq, Repr

/-- Modelled from the spec: `ProofIter` from `mmb/proof.rs` (not under
`src/`); the core only queries `is_null()` and hands the iterator to the
proof replay engine. -/
structure ProofIter where
  is_null : Bool
deriving DecidableEq, Repr

/-- Modelled from the spec: a `Term` record of the Outline: "an ordered
binder list (`args()`), binder count excluding return slot, a declared
return Type, and a handle to its stored unify-instruction stream";
`Term` additionally exposes `is_def()`.  The unify stream is kept as an
opaque numeric handle. -/
structure Term where
  args : List Ty
  ret : Ty
  num_args_no_ret : Nat
  is_def : Bool
  unify : Nat

/-- Modelled from the spec: an `Assert` record of the Outline: an ordered
binder list and a handle to its stored unify-instruction stream. -/
structure Assert where
  args : List Ty
  unify : Nat

/-- Modelled from the spec: the global declaration table ("Outline"),
consumed through `get_sort_mods`, `get_term_by_num`, `get_assert_by_num`
and `add_declar`; an append-only indexed store. -/
structure Outline where
  sorts : List SortMods
  terms : List Term
  asserts : List Assert
  declars : List StmtCmd

/-- Modelled from the spec: `get_sort_mods(index) -> Res<SortFlags>`;
a missing index is a returned lookup error. -/
def Outline.get_sort_mods (o : Outline) (i : Nat) : Res SortMods :=
  match o.sorts[i]? with
  | some m => .ok m
  | none => .error (.fmt "get_sort_mods: no sort at index")

/-- Modelled from the spec: `get_term_by_num(index) -> Res<Term>`. -/
def Outline.get_term_by_num (o : Outline) (i : Nat) : Res Term :=
  match o.terms[i]? with
  | some t => .ok t
  | none => .error (.fmt "get_term_by_num: no term at index")

/-- Modelled from the spec: `get_assert_by_num(index) -> Res<Assert>`. -/
def Outline.get_assert_by_num (o : Outline) (i : Nat) : Res Assert :=
  match o.asserts[i]? with
  | some a => .ok a
  | none => .error (.fmt "get_assert_by_num: no assert at index")

/-- Modelled from the spec: `add_declar` appends the declaration,
"committing its numeric index for future lookups". -/
def Outline.add_declar (o : Outline) (stmt : StmtCmd) : Outline :=
  { o with declars := o.declars ++ [stmt] }

/-- `MmbState` (`mod.rs` lines 183-193): the per-declaration verification
session.  The arena and the outline reference are not part of the model
state; the outline is passed explicitly to the functions that read it. -/
structure MmbState where
  stack : List MmbItem
  heap : List MmbItem
  ustack : List MmbItem
  uheap : List MmbItem
  hstack : List MmbItem
  next_bv : Nat

/-- `MmbState::new_from` (`mod.rs` lines 196-208): a fresh session — all
five sequences empty, bound-variable counter 1. -/
def MmbState.new_from : MmbState :=
  { stack := [], heap := [], ustack := [], uheap := [], hstack := [], next_bv := 1 }

/-- `Vec::pop`: removes and returns the LAST element. -/
def vecPop : List α → Option (List α × α)
  | [] => none
  | [a] => some ([], a)
  | a :: rest =>
    match vecPop rest with
    | none => none
    | some (l, x) => some (a :: l, x)

/-- `MmbState::take_next_bv` (`mod.rs` lines 239-245): return the current
counter and double it; the `assert!` on the outgoing value is a panic.
The doubling cannot overflow a `u64`: the guard bounds the factor below
`2 ^ 56` before the multiplication. -/
def take_next_bv (st : MmbState) : Res (Nat × MmbState) :=
  if st.next_bv >>> 56 ≠ 0 then .error (.abort "too many bound variables")
  else .ok (st.next_bv, { st with next_bv := st.next_bv * 2 })

/-- Modelled from the spec: `Mode` from `mmb/proof.rs` — proof replay
mode, distinguishing definition bodies from theorem bodies. -/
inductive Mode where
  | Def : Mode
  | Thm : Mode
deriving DecidableEq, Repr

/-- Modelled from the spec: `UMode` from `mmb/unify.rs` — unification
mode. -/
inductive UMode where
  | UDef : UMode
  | UThmEnd : UMode
deriving DecidableEq, Repr

/-- Modelled from the spec: the proof replay engine
`run_proof(mode, proof-stream) -> Res<()>` (`mmb/proof.rs`, out of
scope), consumed as an arbitrary state transformer. -/
abbrev RunProof := Mode → ProofIter → MmbState → Res MmbState

/-- Modelled from the spec: the unification engine
`run_unify(mode, unify-stream, target-item) -> Res<()>` (`mmb/unify.rs`,
out of scope), consumed as an arbitrary state transformer. -/
abbrev RunUnify := UMode → Nat → MmbItem → MmbState → Res MmbState

/-- The binder loop of `load_args` (`mod.rs` lines 251-266), one binder at
a time with its running index.  In the bound branch the heap push uses
the state returned by `take_next_bv`; in the non-bound branch the state
is unchanged except for the push. -/
def loadArgsLoop (o : Outline) : List Ty → Nat → MmbState → Res MmbState
  | [], _, st => .ok st
  | arg :: rest, idx, st =>
    if arg.is_bound then
      match o.get_sort_mods arg.sort with
      | .error _ => .error (.abort "unwrap failed: get_sort_mods")
      | .ok mods =>
        if mods.inner &&& SORT_STRICT ≠ 0 then
          .error (.fmt "strict sort cannot have a bound variable")
        else
          match take_next_bv st with
          | .error e => .error e
          | .ok (this_bv, st2) =>
            match arg.bound_digit with
            | .error e => .error e
            | .ok digit =>
              if digit ≠ this_bv then .error (.fmt "wrong bound variable digit")
              else loadArgsLoop o rest (idx + 1)
                { st2 with heap := st2.heap ++ [MmbItem.expr (MmbExpr.var idx arg)] }
    else
      match arg.deps with
      | .error _ => .error (.abort "unwrap failed: deps")
      | .ok d =>
        if d &&& not64 (st.next_bv - 1) ≠ 0 then
          .error (.fmt "dependency on a bound variable not yet declared")
        else loadArgsLoop o rest (idx + 1)
          { st with heap := st.heap ++ [MmbItem.expr (MmbExpr.var idx arg)] }

/-- `load_args` (`mod.rs` lines 247-272): entry invariants, the binder
loop, and the final return-slot pop for termdefs. -/
def load_args (o : Outline) (args : List Ty) (stmt : StmtCmd) (st : MmbState) : Res MmbState :=
  if st.heap.length ≠ 0 then .error (.fmt "load_args requires an empty heap")
  else if st.next_bv ≠ 1 then .error (.fmt "load_args requires a fresh bv counter")
  else
    match loadArgsLoop o args 0 st with
    | .error e => .error e
    | .ok st2 =>
      match stmt with
      | .termDef _ => .ok { st2 with heap := st2.heap.dropLast }
      | _ => .ok st2

/-- The final-value classification match of `verify_assert`
(`mod.rs` lines 306-310): a `Proof` item is unwrapped for a theorem,
anything (a `Proof` item included) is used as-is for an axiom, and every
other combination is the format error "Expected a proof". -/
def classify_final (stmt : StmtCmd) (popped : MmbItem) : Res MmbItem :=
  match popped with
  | .proof p =>
    match stmt with
    | .thm _ => .ok p
    | .ax _ => .ok popped
    | _ => .error (.fmt "Expected a proof")
  | owise =>
    match stmt with
    | .ax _ => .ok owise
    | _ => .error (.fmt "Expected a proof")

/-- `verify_termdef` (`mod.rs` lines 274-295), with the replay and
unification engines passed as parameters. -/
def verify_termdef (rp : RunProof) (ru : RunUnify) (o : Outline) (stmt : StmtCmd)
    (term : Term) (pf : ProofIter) (st : MmbState) : Res MmbState :=
  match load_args o term.args stmt st with
  | .error e => .error e
  | .ok st =>
    if term.is_def then
      match rp Mode.Def pf st with
      | .error e => .error e
      | .ok st =>
        match vecPop st.stack with
        | none => .error (.fmt "expected a value")
        | some (stack2, final_val) =>
          match final_val.get_ty with
          | .error e => .error e
          | .ok ty =>
            let st := { st with stack := stack2 }
            if ¬ st.stack.isEmpty then .error (.fmt "stack not empty after final pop")
            else if ¬ sorts_compatible ty term.ret then .error (.fmt "return sort not compatible")
            else if ¬ st.uheap.isEmpty then .error (.fmt "uheap not empty before seeding")
            else
              let st := { st with uheap := st.uheap ++ st.heap.take term.num_args_no_ret }
              ru UMode.UDef term.unify final_val st
    else .ok st

/-- `verify_assert` (`mod.rs` lines 297-318), with the replay and
unification engines passed as parameters. -/
def verify_assert (rp : RunProof) (ru : RunUnify) (o : Outline) (stmt : StmtCmd)
    (assert : Assert) (pf : ProofIter) (st : MmbState) : Res MmbState :=
  match load_args o assert.args stmt st with
  | .error e => .error e
  | .ok st =>
    match rp Mode.Thm pf st with
    | .error e => .error e
    | .ok st =>
      match vecPop st.stack with
      | none => .error (.fmt "expected a value")
      | some (stack2, popped) =>
        match classify_final stmt popped with
        | .error e => .error e
        | .ok final_val =>
          let st := { st with stack := stack2 }
          if ¬ st.stack.isEmpty then .error (.fmt "stack not empty after assert pop")
          else if ¬ st.uheap.isEmpty then .error (.fmt "uheap not empty before assert seeding")
          else
            let st := { st with uheap := st.uheap ++ st.heap.take assert.args.length }
            ru UMode.UThmEnd assert.unify final_val st

/-- `verify1` (`mod.rs` lines 210-230).  The Outline is threaded
explicitly: the returned Outline is the table after the call, and the
optional `VErr` is the failure, when any.  `add_declar` is invoked only
in the final `Ok(...)` expression of the source. -/
def verify1 (rp : RunProof) (ru : RunUnify) (o : Outline) (stmt : StmtCmd)
    (pf : ProofIter) : Outline × Option VErr :=
  match stmt with
  | .sort _ =>
    if ¬ pf.is_null then (o, some (.fmt "mmb sorts must have null proof iterators"))
    else (o.add_declar stmt, none)
  | .termDef num =>
    match num with
    | none => (o, some (.abort "unwrap failed: stmt num"))
    | some n =>
      match o.get_term_by_num n with
      | .error e => (o, some e)
      | .ok term =>
        if ¬ term.is_def ∧ ¬ pf.is_null then
          (o, some (.fmt "mmb terms must have null proof iterators"))
        else
          match verify_termdef rp ru o stmt term pf MmbState.new_from with
          | .error e => (o, some e)
          | .ok _ => (o.add_declar stmt, none)
  | .ax num | .thm num =>
    match num with
    | none => (o, some (.abort "unwrap failed: stmt num"))
    | some n =>
      match o.get_assert_by_num n with
      | .error e => (o, some e)
      | .ok assert =>
        match verify_assert rp ru o stmt assert pf MmbState.new_from with
        | .error e => (o, some e)
        | .ok _ => (o.add_declar stmt, none)

/-- The number of bound binders in a binder list. -/
def countBound (l : List Ty) : Nat := l.countP (fun a => a.is_bound)

/-- Iterated calls to `take_next_bv`, collecting the returned digits. -/
def iterate_bvs : Nat → MmbState → Res (List Nat)
  | 0, _ => .ok []
  | n + 1, st =>
    match take_next_bv st with
    | .error e => .error e
    | .ok (d, st2) =>
      match iterate_bvs n st2 with
      | .error e => .error e
      | .ok rest => .ok (d :: rest)

/-! ### Basic facts about the state primitives -/

theorem take_next_bv_eq_ok (st : MmbState) (bv : Nat) (st2 : MmbState)
    (h : take_next_bv st = .ok (bv, st2)) :
    bv = st.next_bv ∧ st2 = { st with next_bv := st.next_bv * 2 } := by
  unfold take_next_bv at h
  split at h
  · cases h
  · cases h
    exact ⟨rfl, rfl⟩

/-! ### Claim theorems: item model and bound-variable counter -/

/-- Claim C10: for every `MmbItem` that is not an `Expr` variant, `low_bits`
panics (modelled as `none`) by unwrapping an error value, whereas `get_ty`,
`get_deps` and `get_bound_digit` on the same item return an error result to
the caller. -/
theorem low_bits_aborts_on_non_expr :
    ∀ x : MmbItem, x.is_expr = false →
    x.low_bits = none ∧
    (∃ m, x.get_ty = .error m) ∧
    (∃ m, x.get_deps = .error m) ∧
    (∃ m, x.get_bound_digit = .error m) := by
  intro x h
  cases x with
  | expr e => simp [MmbItem.is_expr] at h
  | proof p => exact ⟨rfl, ⟨_, rfl⟩, ⟨_, rfl⟩, ⟨_, rfl⟩⟩
  | conv a b => exact ⟨rfl, ⟨_, rfl⟩, ⟨_, rfl⟩, ⟨_, rfl⟩⟩
  | coConv a b => exact ⟨rfl, ⟨_, rfl⟩, ⟨_, rfl⟩, ⟨_, rfl⟩⟩

theorem low_bits_aborts_on_non_expr_witness :
    (MmbItem.proof (.expr (.var 0 ⟨0⟩))).low_bits = none ∧
    (∃ m, (MmbItem.proof (.expr (.var 0 ⟨0⟩))).get_ty = .error m) ∧
    (∃ m, (MmbItem.proof (.expr (.var 0 ⟨0⟩))).get_deps = .error m) ∧
    (∃ m, (MmbItem.proof (.expr (.var 0 ⟨0⟩))).get_bound_digit = .error m) :=
  low_bits_aborts_on_non_expr _ rfl

/-- Claim C3 (evaluation at the failing input): starting from a fresh
session, the first 56 calls to `take_next_bv` all succeed, returning the
digits `2 ^ 0, ..., 2 ^ 55`; only the 57th call fails.  The 56th call does
NOT fail: `(2 ^ 55) >>> 56 = 0`, so the `assert!` passes, allowing a 56th
bound variable — in conflict with the source comment "Assert we're under
the limit of 55 bound variables". -/
theorem take_next_bv_allows_56_bound_vars :
    iterate_bvs 56 MmbState.new_from = .ok ((List.range 56).map fun i => 2 ^ i) ∧
    iterate_bvs 55 MmbState.new_from = .ok ((List.range 55).map fun i => 2 ^ i) ∧
    iterate_bvs 57 MmbState.new_from = .error (.abort "too many bound variables") := by
  refine ⟨by rfl, by rfl, by rfl⟩

/-! ### Claim theorem: commit discipline of verify1 -/

/-- Claim C7: `verify1` appends the declaration to the Outline only as the
last action of a fully successful verification; on any error, in any
branch, the Outline is returned unchanged, with no declaration committed. -/
theorem verify1_commits_only_after_success :
    ∀ (rp : RunProof) (ru : RunUnify) (o : Outline) (stmt : StmtCmd) (pf : ProofIter),
    ((verify1 rp ru o stmt pf).2 = none →
       (verify1 rp ru o stmt pf).1 = o.add_declar stmt ∧
       (verify1 rp ru o stmt pf).1.declars = o.declars ++ [stmt]) ∧
    (∀ e, (verify1 rp ru o stmt pf).2 = some e → (verify1 rp ru o stmt pf).1 = o) := by
  intro rp ru o stmt pf
  rcases stmt with num | num | num | num <;>
    · simp only [verify1]
      repeat' split
      all_goals simp_all [Outline.add_declar]

theorem verify1_commits_only_after_success_witness :
    (verify1 (fun _ _ st => .ok st) (fun _ _ _ st => .ok st)
        ⟨[], [], [], []⟩ (.sort (some 0)) ⟨true⟩).2 = none ∧
    (verify1 (fun _ _ st => .ok st) (fun _ _ _ st => .ok st)
        ⟨[], [], [], []⟩ (.sort (some 0)) ⟨true⟩).1.declars
      = ([] : List StmtCmd) ++ [.sort (some 0)] :=
  ⟨rfl, ((verify1_commits_only_after_success (fun _ _ st => .ok st)
      (fun _ _ _ st => .ok st) ⟨[], [], [], []⟩ (.sort (some 0)) ⟨true⟩).1 rfl).2⟩

theorem loadArgsLoop_ok_spec (o : Outline) :
    ∀ (args : List Ty) (idx : Nat) (st st2 : MmbState),
    loadArgsLoop o args idx st = .ok st2 →
    st2.heap = st.heap ++ (List.enumFrom idx args).map
        (fun p => MmbItem.expr (MmbExpr.var p.1 p.2)) ∧
    st2.next_bv = st.next_bv * 2 ^ countBound args ∧
    st2.stack = st.stack ∧ st2.ustack = st.ustack ∧
    st2.uheap = st.uheap ∧ st2.hstack = st.hstack ∧
    ∀ i arg, args[i]? = some arg →
      (arg.is_bound = true →
        (∃ m, o.get_sort_mods arg.sort = .ok m ∧ m.inner &&& SORT_STRICT = 0) ∧
        arg.bound_digit = .ok (st.next_bv * 2 ^ countBound (args.take i))) ∧
      (arg.is_bound = false →
        ∃ d, arg.deps = .ok d ∧
          d &&& not64 (st.next_bv * 2 ^ countBound (args.take i) - 1) = 0) := by
  intro args
  induction args with
  | nil =>
    intro idx st st2 h
    simp only [loadArgsLoop] at h
    cases h
    simp [countBound]
  | cons a rest ih =>
    intro idx st st2 h
    by_cases hb : a.is_bound
    · simp only [loadArgsLoop, hb, if_true] at h
      repeat' split at h
      any_goals cases h
      rename_i x1 mods hm hstrict x2 this_bv stx htn x3 digit hbd hdig
      obtain ⟨hbv, hstx⟩ := take_next_bv_eq_ok st this_bv stx htn
      subst hbv hstx
      have hdigit : digit = st.next_bv := not_not.mp hdig
      subst hdigit
      have hstrict0 : mods.inner &&& SORT_STRICT = 0 := not_not.mp hstrict
      obtain ⟨IH1, IH2, IH3, IH4, IH5, IH6, IH7⟩ := ih _ _ _ h
      have hcb : countBound (a :: rest) = countBound rest + 1 := by
        simp [countBound, List.countP_cons, hb]
      refine ⟨?_, ?_, by simpa using IH3, by simpa using IH4,
        by simpa using IH5, by simpa using IH6, ?_⟩
      · rw [IH1]
        simp [List.enumFrom_cons]
      · rw [IH2, hcb]
        simp only []
        ring
      · intro i arg hget
        cases i with
        | zero =>
          simp only [List.getElem?_cons_zero, Option.some_inj] at hget
          subst hget
          refine ⟨fun _ => ⟨⟨mods, hm, hstrict0⟩, ?_⟩, fun hc => by rw [hb] at hc; cases hc⟩
          simpa [countBound] using hbd
        | succ i =>
          simp only [List.getElem?_cons_succ] at hget
          have H := IH7 i arg hget
          have htake : countBound ((a :: rest).take (i + 1))
              = countBound (rest.take i) + 1 := by
            simp [countBound, List.take_succ_cons, List.countP_cons, hb]
          constructor
          · intro hab
            refine ⟨(H.1 hab).1, ?_⟩
            have hx : st.next_bv * 2 ^ (countBound (rest.take i) + 1)
                = st.next_bv * 2 * 2 ^ countBound (rest.take i) := by ring
            rw [htake, hx]
            simpa using (H.1 hab).2
          · intro hab
            obtain ⟨d, hd, hmask⟩ := H.2 hab
            have hx : st.next_bv * 2 ^ (countBound (rest.take i) + 1)
                = st.next_bv * 2 * 2 ^ countBound (rest.take i) := by ring
            rw [htake, hx]
            exact ⟨d, hd, by simpa using hmask⟩
    · have hb2 : a.is_bound = false := by simpa using hb
      simp only [loadArgsLoop, hb2, Bool.false_eq_true, if_false] at h
      repeat' split at h
      any_goals cases h
      rename_i x1 d hdp hmaskne
      have hmask0 : d &&& not64 (st.next_bv - 1) = 0 := not_not.mp hmaskne
      obtain ⟨IH1, IH2, IH3, IH4, IH5, IH6, IH7⟩ := ih _ _ _ h
      have hcb : countBound (a :: rest) = countBound rest := by
        simp [countBound, List.countP_cons, hb2]
      refine ⟨?_, ?_, by simpa using IH3, by simpa using IH4,
        by simpa using IH5, by simpa using IH6, ?_⟩
      · rw [IH1]
        simp [List.enumFrom_cons]
      · rw [IH2, hcb]
      · intro i arg hget
        cases i with
        | zero =>
          simp only [List.getElem?_cons_zero, Option.some_inj] at hget
          subst hget
          constructor
          · intro hc
            rw [hb2] at hc
            cases hc
          · intro _
            refine ⟨d, hdp, ?_⟩
            simpa [countBound] using hmask0
        | succ i =>
          simp only [List.getElem?_cons_succ] at hget
          have H := IH7 i arg hget
          have htake : countBound ((a :: rest).take (i + 1))
              = countBound (rest.take i) := by
            simp [countBound, List.take_succ_cons, List.countP_cons, hb2]
          rw [htake]
          exact H

theorem load_args_eq_ok (o : Outline) (args : List Ty) (stmt : StmtCmd)
    (st st2 : MmbState) (h : load_args o args stmt st = .ok st2) :
    st.heap = [] ∧ st.next_bv = 1 ∧
    ∃ st3, loadArgsLoop o args 0 st = .ok st3 ∧
      st2 = (match stmt with
             | .termDef _ => { st3 with heap := st3.heap.dropLast }
             | _ => st3) := by
  unfold load_args at h
  split at h
  · cases h
  · split at h
    · cases h
    · rename_i hheap hbv
      refine ⟨List.length_eq_zero.mp (not_not.mp hheap), not_not.mp hbv, ?_⟩
      cases hl : loadArgsLoop o args 0 st with
      | error e => rw [hl] at h; cases h
      | ok st3 =>
        rw [hl] at h
        refine ⟨st3, rfl, ?_⟩
        cases stmt <;> simp_all

/-- Claim C1: whenever `load_args` succeeds on a binder list, every binder
marked bound has a sort without the STRICT flag and a recorded bound-digit
equal to the value `take_next_bv` returned at that point, namely
`2 ^ (number of bound binders strictly to its left)` — successive powers
of two `1, 2, 4, ...` with no gaps.  Contrapositively, a bound binder
whose declared digit skips a value is rejected. -/
theorem load_args_bound_vars_ordered :
    ∀ (o : Outline) (args : List Ty) (stmt : StmtCmd) (st st2 : MmbState)
      (i : Nat) (arg : Ty),
    load_args o args stmt st = .ok st2 → args[i]? = some arg →
    arg.is_bound = true →
    (∃ m, o.get_sort_mods arg.sort = .ok m ∧ m.inner &&& SORT_STRICT = 0) ∧
    arg.bound_digit = .ok (2 ^ countBound (args.take i)) := by
  intro o args stmt st st2 i arg h hget hb
  obtain ⟨hheap, hbv, st3, hl, _⟩ := load_args_eq_ok o args stmt st st2 h
  have H := ((loadArgsLoop_ok_spec o args 0 st st3 hl).2.2.2.2.2.2 i arg hget).1 hb
  rw [hbv] at H
  simpa using H

theorem load_args_bound_vars_ordered_witness :
    (∃ m, (Outline.mk [⟨0⟩] [] [] []).get_sort_mods (Ty.mk (2 ^ 63 + 1)).sort = .ok m ∧
        m.inner &&& SORT_STRICT = 0) ∧
    (Ty.mk (2 ^ 63 + 1)).bound_digit
      = .ok (2 ^ countBound (([⟨2 ^ 63 + 1⟩, ⟨1⟩] : List Ty).take 0)) :=
  load_args_bound_vars_ordered ⟨[⟨0⟩], [], [], []⟩ [⟨2 ^ 63 + 1⟩, ⟨1⟩] (.ax (some 0))
    MmbState.new_from
    { stack := [], heap := [.expr (.var 0 ⟨2 ^ 63 + 1⟩), .expr (.var 1 ⟨1⟩)],
      ustack := [], uheap := [], hstack := [], next_bv := 2 }
    0 ⟨2 ^ 63 + 1⟩ (by rfl) (by rfl) (by rfl)

/-- Claim C2: whenever `load_args` succeeds, every binder not marked bound
has a recorded dependency mask that is a subset of the digits of the bound
variables already introduced to its left:
`deps &&& not64 (counter - 1) = 0` where the counter at position `i` is
`2 ^ (number of bound binders among the first i)`.  Contrapositively, a
non-bound binder whose mask references a bound slot not yet introduced is
rejected; the rule holds at every position of the binder scan. -/
theorem load_args_deps_monotonic :
    ∀ (o : Outline) (args : List Ty) (stmt : StmtCmd) (st st2 : MmbState)
      (i : Nat) (arg : Ty),
    load_args o args stmt st = .ok st2 → args[i]? = some arg →
    arg.is_bound = false →
    ∃ d, arg.deps = .ok d ∧
      d &&& not64 (2 ^ countBound (args.take i) - 1) = 0 := by
  intro o args stmt st st2 i arg h hget hb
  obtain ⟨hheap, hbv, st3, hl, _⟩ := load_args_eq_ok o args stmt st st2 h
  have H := ((loadArgsLoop_ok_spec o args 0 st st3 hl).2.2.2.2.2.2 i arg hget).2 hb
  rw [hbv] at H
  simpa using H

theorem load_args_deps_monotonic_witness :
    ∃ d, (Ty.mk 1).deps = .ok d ∧
      d &&& not64 (2 ^ countBound (([⟨2 ^ 63 + 1⟩, ⟨1⟩] : List Ty).take 1) - 1) = 0 :=
  load_args_deps_monotonic ⟨[⟨0⟩], [], [], []⟩ [⟨2 ^ 63 + 1⟩, ⟨1⟩] (.ax (some 0))
    MmbState.new_from
    { stack := [], heap := [.expr (.var 0 ⟨2 ^ 63 + 1⟩), .expr (.var 1 ⟨1⟩)],
      ustack := [], uheap := [], hstack := [], next_bv := 2 }
    1 ⟨1⟩ (by rfl) (by rfl) (by rfl)

/-- Claim C9: after a successful `load_args` on a binder list of length n,
the heap consists exactly of the `Expr(Var(idx, ty))` nodes of the binders
at their sequential indices; for a term/definition declaration the
last-pushed entry (the return slot) is popped, leaving length n - 1, and
for every other declaration kind the heap has length n. -/
theorem load_args_heap_layout :
    ∀ (o : Outline) (args : List Ty) (stmt : StmtCmd) (st st2 : MmbState),
    load_args o args stmt st = .ok st2 →
    st2.heap = (match stmt with
      | .termDef _ => (args.enum.map fun p => MmbItem.expr (MmbExpr.var p.1 p.2)).dropLast
      | _ => args.enum.map fun p => MmbItem.expr (MmbExpr.var p.1 p.2)) ∧
    st2.heap.length = (match stmt with
      | .termDef _ => args.length - 1
      | _ => args.length) := by
  intro o args stmt st st2 h
  obtain ⟨hheap, hbv, st3, hl, hmatch⟩ := load_args_eq_ok o args stmt st st2 h
  have H1 := (loadArgsLoop_ok_spec o args 0 st st3 hl).1
  rw [hheap] at H1
  simp only [List.nil_append] at H1
  cases stmt <;>
    simp_all [List.enum_eq_enumFrom, List.length_dropLast, List.enumFrom_length]

theorem load_args_heap_layout_witness :
    ({ stack := [], heap := [.expr (.var 0 ⟨2 ^ 63 + 1⟩)],
       ustack := [], uheap := [], hstack := [], next_bv := 2 } : MmbState).heap
      = ((([⟨2 ^ 63 + 1⟩, ⟨1⟩] : List Ty).enum.map
          fun p => MmbItem.expr (MmbExpr.var p.1 p.2)).dropLast) ∧
    ({ stack := [], heap := [.expr (.var 0 ⟨2 ^ 63 + 1⟩)],
       ustack := [], uheap := [], hstack := [], next_bv := 2 } : MmbState).heap.length
      = ([⟨2 ^ 63 + 1⟩, ⟨1⟩] : List Ty).length - 1 :=
  load_args_heap_layout ⟨[⟨0⟩], [], [], []⟩ [⟨2 ^ 63 + 1⟩, ⟨1⟩] (.termDef (some 0))
    MmbState.new_from
    { stack := [], heap := [.expr (.var 0 ⟨2 ^ 63 + 1⟩)],
      ustack := [], uheap := [], hstack := [], next_bv := 2 }
    (by rfl)

/-! ### Concrete inputs shared by the orchestration examples -/

/-- A trivially succeeding unification engine. -/
def ruId : RunUnify := fun _ _ _ st => .ok st

/-- An expression item used in concrete runs. -/
def exExprItem : MmbItem := .expr (.var 0 ⟨0⟩)

/-- A nullary genuine definition whose binder list is empty. -/
def exTerm : Term := ⟨[], ⟨0⟩, 0, true, 0⟩

/-- An assertion record with an empty binder list. -/
def exAssert : Assert := ⟨[], 0⟩

/-- An outline declaring one sort with no modifier flags. -/
def exOutline : Outline := ⟨[⟨0⟩], [], [], []⟩

/-- Claim C5 (amended): after `load_args` and a successful proof replay in
Def mode on a genuine definition, `verify_termdef` pops exactly one final
stack value: an empty stack fails with the missing-final-value error; a
stack with more than one entry whose top passes the type lookup fails
with the stack-not-empty error (if the top is a non-expression the type
lookup fails first, with that error); and on success the replayed stack
had exactly one entry, whose type is sort-compatible with the declared
return type. -/
theorem verify_termdef_closing_checks :
    ∀ (rp : RunProof) (ru : RunUnify) (o : Outline) (stmt : StmtCmd) (term : Term)
      (pf : ProofIter) (st st0 st1 : MmbState),
    term.is_def = true →
    load_args o term.args stmt st = .ok st0 →
    rp Mode.Def pf st0 = .ok st1 →
    (st1.stack = [] →
       verify_termdef rp ru o stmt term pf st = .error (.fmt "expected a value")) ∧
    (∀ stack2 fin ty, vecPop st1.stack = some (stack2, fin) →
       fin.get_ty = .ok ty → stack2 ≠ [] →
       verify_termdef rp ru o stmt term pf st
         = .error (.fmt "stack not empty after final pop")) ∧
    (∀ stack2 fin m, vecPop st1.stack = some (stack2, fin) →
       fin.get_ty = .error m →
       verify_termdef rp ru o stmt term pf st = .error m) ∧
    (∀ stOut, verify_termdef rp ru o stmt term pf st = .ok stOut →
       ∃ fin ty, vecPop st1.stack = some ([], fin) ∧ fin.get_ty = .ok ty ∧
         sorts_compatible ty term.ret = true) := by
  intro rp ru o stmt term pf st st0 st1 hdef hload hrp
  refine ⟨?_, ?_, ?_, ?_⟩
  · intro hstack
    simp only [verify_termdef, hload, hdef, if_true, hrp, hstack, vecPop]
  · intro stack2 fin ty hpop hty hne
    have hisEmpty : stack2.isEmpty = false := by
      cases stack2 with
      | nil => exact absurd rfl hne
      | cons x xs => rfl
    simp only [verify_termdef, hload, hdef, if_true, hrp, hpop, hty, hisEmpty]
    simp
  · intro stack2 fin m hpop hty
    simp only [verify_termdef, hload, hdef, if_true, hrp, hpop, hty]
  · intro stOut hok
    simp only [verify_termdef, hload, hdef, if_true, hrp] at hok
    cases hpop : vecPop st1.stack with
    | none => rw [hpop] at hok; cases hok
    | some p =>
      obtain ⟨stack2, fin⟩ := p
      rw [hpop] at hok
      dsimp only at hok
      cases hty : fin.get_ty with
      | error e => rw [hty] at hok; dsimp only at hok; cases hok
      | ok ty =>
        rw [hty] at hok
        dsimp only at hok
        split at hok
        · cases hok
        · rename_i hstk
          split at hok
          · cases hok
          · rename_i hcompat
            have hnil : stack2 = [] := by
              cases stack2 with
              | nil => rfl
              | cons x xs => simp [List.isEmpty] at hstk
            subst hnil
            exact ⟨fin, ty, rfl, hty, by simpa using hcompat⟩

theorem verify_termdef_closing_checks_witness :
    verify_termdef (fun _ _ st => .ok st) ruId exOutline (.termDef (some 0)) exTerm
      ⟨false⟩ MmbState.new_from = .error (.fmt "expected a value") :=
  (verify_termdef_closing_checks (fun _ _ st => .ok st) ruId exOutline
    (.termDef (some 0)) exTerm ⟨false⟩ MmbState.new_from MmbState.new_from
    MmbState.new_from rfl rfl rfl).1 rfl

/-- A replay engine leaving two stack entries, the top one a `Proof`
item. -/
def rpTwoTopProof : RunProof :=
  fun _ _ st => .ok { st with stack := [exExprItem, .proof exExprItem] }

/-- Claim C5 counterexample: a genuine definition whose replayed proof
leaves two items on the stack does NOT necessarily fail with the
stack-not-empty error: when the popped top value is a non-expression,
`get_ty` fails first (code line 284 precedes the emptiness check of line
285), so the reported error is the type error, not the stack-not-empty
error. -/
theorem verify_termdef_two_items_not_stack_error :
    rpTwoTopProof Mode.Def ⟨false⟩ MmbState.new_from
      = .ok { MmbState.new_from with stack := [exExprItem, .proof exExprItem] } ∧
    ({ MmbState.new_from with
        stack := [exExprItem, MmbItem.proof exExprItem] } : MmbState).stack.length = 2 ∧
    verify_termdef rpTwoTopProof ruId exOutline (.termDef (some 0)) exTerm ⟨false⟩
        MmbState.new_from
      = .error (.fmt "Cannot get type from a non-expr MmbItem") ∧
    VErr.fmt "Cannot get type from a non-expr MmbItem"
      ≠ VErr.fmt "stack not empty after final pop" :=
  ⟨rfl, rfl, rfl, by decide⟩

/-- Claim C6 (amended): the classification of the final stack value by
`verify_assert`: for a theorem declaration, a `Proof` item is unwrapped to
its inner item and any non-`Proof` item is the format error "Expected a
proof" (which `verify_assert` returns); for an axiom declaration, ANY
item — a `Proof` item included — is accepted and used as-is. -/
theorem verify_assert_final_classification :
    ∀ (num : Option Nat) (p x : MmbItem),
    classify_final (.thm num) (.proof p) = .ok p ∧
    classify_final (.ax num) x = .ok x ∧
    (x.is_proof_item = false →
      classify_final (.thm num) x = .error (.fmt "Expected a proof")) ∧
    (∀ (rp : RunProof) (ru : RunUnify) (o : Outline) (assert : Assert)
       (pf : ProofIter) (st st0 st1 : MmbState) (stack2 : List MmbItem)
       (fin : MmbItem),
      load_args o assert.args (.thm num) st = .ok st0 →
      rp Mode.Thm pf st0 = .ok st1 →
      vecPop st1.stack = some (stack2, fin) →
      fin.is_proof_item = false →
      verify_assert rp ru o (.thm num) assert pf st
        = .error (.fmt "Expected a proof")) := by
  intro num p x
  have hclass : ∀ y : MmbItem, y.is_proof_item = false →
      classify_final (.thm num) y = .error (.fmt "Expected a proof") := by
    intro y hy
    cases y with
    | proof q => simp [MmbItem.is_proof_item] at hy
    | expr e => rfl
    | conv a b => rfl
    | coConv a b => rfl
  refine ⟨rfl, ?_, hclass x, ?_⟩
  · cases x with
    | proof q => rfl
    | expr e => rfl
    | conv a b => rfl
    | coConv a b => rfl
  · intro rp ru o assert pf st st0 st1 stack2 fin hload hrp hpop hfin
    simp only [verify_assert, hload, hrp, hpop]
    rw [hclass fin hfin]

/-- A replay engine leaving exactly one non-proof expression item. -/
def rpOneExpr : RunProof := fun _ _ st => .ok { st with stack := [exExprItem] }

theorem verify_assert_final_classification_witness :
    verify_assert rpOneExpr ruId exOutline (.thm (some 0)) exAssert ⟨false⟩
      MmbState.new_from = .error (.fmt "Expected a proof") :=
  (verify_assert_final_classification (some 0) exExprItem exExprItem).2.2.2
    rpOneExpr ruId exOutline exAssert ⟨false⟩ MmbState.new_from MmbState.new_from
    { MmbState.new_from with stack := [exExprItem] } [] exExprItem rfl rfl rfl rfl

/-- A replay engine leaving exactly one `Proof` item on the stack. -/
def rpOneProof : RunProof :=
  fun _ _ st => .ok { st with stack := [.proof exExprItem] }

/-- Claim C6 counterexample: on an axiom declaration whose final stack
value is a `Proof` item, `verify_assert` does NOT fail with a format
error: the second match arm accepts any item when the statement is an
axiom, so the verification succeeds (with a trivially succeeding
unification engine). -/
theorem verify_assert_ax_accepts_proof_item :
    rpOneProof Mode.Thm ⟨false⟩ MmbState.new_from
      = .ok { MmbState.new_from with stack := [.proof exExprItem] } ∧
    (MmbItem.proof exExprItem).is_proof_item = true ∧
    verify_assert rpOneProof ruId exOutline (.ax (some 0)) exAssert ⟨false⟩
      MmbState.new_from = .ok MmbState.new_from :=
  ⟨rfl, rfl, rfl⟩

/-! ### Header parsing lemmas -/

theorem parse_u8_spec (l : List Nat) :
    (l.length < 1 ∧ parse_u8 l = .error (.fmt "parse_u8: not enough bytes")) ∨
    (∃ v r, parse_u8 l = .ok (v, r) ∧ l.length = r.length + 1) := by
  cases l with
  | nil => exact Or.inl ⟨by simp, rfl⟩
  | cons b rest => exact Or.inr ⟨b % 256, rest, rfl, by simp⟩

theorem parse_u16_spec (l : List Nat) :
    (l.length < 2 ∧ parse_u16 l = .error (.fmt "parse_u8: not enough bytes")) ∨
    (∃ v r, parse_u16 l = .ok (v, r) ∧ l.length = r.length + 2) := by
  rcases parse_u8_spec l with ⟨h1, h2⟩ | ⟨v, r, h2, hlen⟩
  · exact Or.inl ⟨by omega, by simp [parse_u16, h2]⟩
  · rcases parse_u8_spec r with ⟨h1b, h2b⟩ | ⟨v2, r2, h2b, hlen2⟩
    · exact Or.inl ⟨by omega, by simp [parse_u16, h2, h2b]⟩
    · exact Or.inr ⟨v + v2 * 2 ^ 8, r2, by simp [parse_u16, h2, h2b], by omega⟩

theorem parse_u32_spec (l : List Nat) :
    (l.length < 4 ∧ parse_u32 l = .error (.fmt "parse_u8: not enough bytes")) ∨
    (∃ v r, parse_u32 l = .ok (v, r) ∧ l.length = r.length + 4) := by
  rcases parse_u16_spec l with ⟨h1, h2⟩ | ⟨v, r, h2, hlen⟩
  · exact Or.inl ⟨by omega, by simp [parse_u32, h2]⟩
  · rcases parse_u16_spec r with ⟨h1b, h2b⟩ | ⟨v2, r2, h2b, hlen2⟩
    · exact Or.inl ⟨by omega, by simp [parse_u32, h2, h2b]⟩
    · exact Or.inr ⟨v + v2 * 2 ^ 16, r2, by simp [parse_u32, h2, h2b], by omega⟩

theorem parse_u64_spec (l : List Nat) :
    (l.length < 8 ∧ parse_u64 l = .error (.fmt "parse_u8: not enough bytes")) ∨
    (∃ v r, parse_u64 l = .ok (v, r) ∧ l.length = r.length + 8) := by
  rcases parse_u32_spec l with ⟨h1, h2⟩ | ⟨v, r, h2, hlen⟩
  · exact Or.inl ⟨by omega, by simp [parse_u64, h2]⟩
  · rcases parse_u32_spec r with ⟨h1b, h2b⟩ | ⟨v2, r2, h2b, hlen2⟩
    · exact Or.inl ⟨by omega, by simp [parse_u64, h2, h2b]⟩
    · exact Or.inr ⟨v + v2 * 2 ^ 32, r2, by simp [parse_u64, h2, h2b], by omega⟩

/-- Claim C8 (amended): `parse_header` returns a format error to the
caller whenever the buffer is shorter than the fixed 40-byte layout at
any field, but a magic mismatch is a fatal `assert_eq!` abort, not a
returned error; on success the sort-flag-array offset equals 40, the
number of bytes consumed. -/
theorem parse_header_spec :
    ∀ (mmb : List Nat),
    (mmb.length < 4 →
       parse_header mmb = .error (.fmt "parse_u8: not enough bytes")) ∧
    (∀ w rest, parse_u32 mmb = .ok (w, rest) → w ≠ MM0B_MAGIC →
       parse_header mmb = .error (.abort "assert_eq failed: magic mismatch")) ∧
    (∀ rest, parse_u32 mmb = .ok (MM0B_MAGIC, rest) → mmb.length < 40 →
       parse_header mmb = .error (.fmt "parse_u8: not enough bytes")) ∧
    (∀ h, parse_header mmb = .ok h →
       h.sort_data_start = 40 ∧ h.magic = MM0B_MAGIC ∧ 40 ≤ mmb.length) := by
  intro mmb
  refine ⟨?_, ?_, ?_, ?_⟩
  · intro hlt
    rcases parse_u32_spec mmb with ⟨h1, h2⟩ | ⟨v, r, h2, hlen⟩
    · simp [parse_header, h2]
    · omega
  · intro w rest hu32 hw
    simp only [parse_header, hu32]
    rw [if_pos hw]
  · intro rest hu32 hlt
    have hrest : mmb.length = rest.length + 4 := by
      rcases parse_u32_spec mmb with ⟨h1, h2⟩ | ⟨v, r, h2, hlen⟩
      · rw [h2] at hu32; cases hu32
      · rw [h2] at hu32
        obtain ⟨rfl, rfl⟩ : v = MM0B_MAGIC ∧ r = rest := by
          have := hu32
          simp at this
          exact ⟨this.1, this.2⟩
        exact hlen
    simp only [parse_header, hu32, ne_eq, not_true_eq_false, if_false]
    rcases parse_u8_spec rest with ⟨l1, e1⟩ | ⟨v1, r1, e1, l1⟩
    · simp [e1]
    rcases parse_u8_spec r1 with ⟨l2, e2⟩ | ⟨v2, r2, e2, l2⟩
    · simp [e1, e2]
    rcases parse_u16_spec r2 with ⟨l3, e3⟩ | ⟨v3, r3, e3, l3⟩
    · simp [e1, e2, e3]
    rcases parse_u32_spec r3 with ⟨l4, e4⟩ | ⟨v4, r4, e4, l4⟩
    · simp [e1, e2, e3, e4]
    rcases parse_u32_spec r4 with ⟨l5, e5⟩ | ⟨v5, r5, e5, l5⟩
    · simp [e1, e2, e3, e4, e5]
    rcases parse_u32_spec r5 with ⟨l6, e6⟩ | ⟨v6, r6, e6, l6⟩
    · simp [e1, e2, e3, e4, e5, e6]
    rcases parse_u32_spec r6 with ⟨l7, e7⟩ | ⟨v7, r7, e7, l7⟩
    · simp [e1, e2, e3, e4, e5, e6, e7]
    rcases parse_u32_spec r7 with ⟨l8, e8⟩ | ⟨v8, r8, e8, l8⟩
    · simp [e1, e2, e3, e4, e5, e6, e7, e8]
    rcases parse_u32_spec r8 with ⟨l9, e9⟩ | ⟨v9, r9, e9, l9⟩
    · simp [e1, e2, e3, e4, e5, e6, e7, e8, e9]
    rcases parse_u64_spec r9 with ⟨l10, e10⟩ | ⟨v10, r10, e10, l10⟩
    · simp [e1, e2, e3, e4, e5, e6, e7, e8, e9, e10]
    omega
  · intro h hok
    rcases parse_u32_spec mmb with ⟨l0, e0⟩ | ⟨v0, rest, e0, l0⟩
    · rw [parse_header, e0] at hok; cases hok
    rw [parse_header, e0] at hok
    dsimp only at hok
    split at hok
    · cases hok
    rename_i hv0
    have hv0' : v0 = MM0B_MAGIC := not_not.mp hv0
    rcases parse_u8_spec rest with ⟨l1, e1⟩ | ⟨v1, r1, e1, l1⟩
    · rw [e1] at hok; cases hok
    rw [e1] at hok; dsimp only at hok
    rcases parse_u8_spec r1 with ⟨l2, e2⟩ | ⟨v2, r2, e2, l2⟩
    · rw [e2] at hok; cases hok
    rw [e2] at hok; dsimp only at hok
    rcases parse_u16_spec r2 with ⟨l3, e3⟩ | ⟨v3, r3, e3, l3⟩
    · rw [e3] at hok; cases hok
    rw [e3] at hok; dsimp only at hok
    rcases parse_u32_spec r3 with ⟨l4, e4⟩ | ⟨v4, r4, e4, l4⟩
    · rw [e4] at hok; cases hok
    rw [e4] at hok; dsimp only at hok
    rcases parse_u32_spec r4 with ⟨l5, e5⟩ | ⟨v5, r5, e5, l5⟩
    · rw [e5] at hok; cases hok
    rw [e5] at hok; dsimp only at hok
    rcases parse_u32_spec r5 with ⟨l6, e6⟩ | ⟨v6, r6, e6, l6⟩
    · rw [e6] at hok; cases hok
    rw [e6] at hok; dsimp only at hok
    rcases parse_u32_spec r6 with ⟨l7, e7⟩ | ⟨v7, r7, e7, l7⟩
    · rw [e7] at hok; cases hok
    rw [e7] at hok; dsimp only at hok
    rcases parse_u32_spec r7 with ⟨l8, e8⟩ | ⟨v8, r8, e8, l8⟩
    · rw [e8] at hok; cases hok
    rw [e8] at hok; dsimp only at hok
    rcases parse_u32_spec r8 with ⟨l9, e9⟩ | ⟨v9, r9, e9, l9⟩
    · rw [e9] at hok; cases hok
    rw [e9] at hok; dsimp only at hok
    rcases parse_u64_spec r9 with ⟨l10, e10⟩ | ⟨v10, r10, e10, l10⟩
    · rw [e10] at hok; cases hok
    rw [e10] at hok; dsimp only at hok
    have hlen40 : mmb.length - r10.length = 40 := by omega
    rw [hlen40] at hok
    have hconv : conv_u32 40 = .ok 40 := by simp [conv_u32]
    rw [hconv] at hok
    dsimp only at hok
    cases hok
    refine ⟨rfl, hv0', by omega⟩

theorem parse_header_spec_witness :
    (Header.mk 0x42304D4D 0 0 0 0 0 0 0 0 0 0 40).sort_data_start = 40 ∧
    (Header.mk 0x42304D4D 0 0 0 0 0 0 0 0 0 0 40).magic = MM0B_MAGIC ∧
    40 ≤ (([0x4D, 0x4D, 0x30, 0x42] ++ List.replicate 36 0) : List Nat).length :=
  (parse_header_spec ([0x4D, 0x4D, 0x30, 0x42] ++ List.replicate 36 0)).2.2.2
    (Header.mk 0x42304D4D 0 0 0 0 0 0 0 0 0 0 40) (by rfl)

/-- Claim C8 counterexample: on a 40-byte buffer whose magic field does
not match, `parse_header` aborts through `assert_eq!` — the result is the
abort error, which is not equal to any returned format error value. -/
theorem parse_header_bad_magic_aborts :
    parse_header (List.replicate 40 0)
      = .error (.abort "assert_eq failed: magic mismatch") ∧
    (∀ m, VErr.abort "assert_eq failed: magic mismatch" ≠ VErr.fmt m) :=
  ⟨rfl, fun _ h => VErr.noConfusion h⟩

/-! ### Bit-level characterization of sorts_compatible -/

theorem testBit_not64 (x i : Nat) :
    (not64 x).testBit i = ((x.testBit i) ^^ decide (i < 64)) := by
  rw [not64, Nat.testBit_xor, Nat.testBit_two_pow_sub_one]

theorem testBit_bound_mask (j : Nat) : TYPE_BOUND_MASK.testBit j = decide (63 = j) := by
  rw [TYPE_BOUND_MASK, Nat.one_shiftLeft, Nat.testBit_two_pow]

theorem testBit_deps_mask (j : Nat) : TYPE_DEPS_MASK.testBit j = decide (j < 56) := by
  rw [TYPE_DEPS_MASK, Nat.one_shiftLeft, Nat.testBit_two_pow_sub_one]

theorem land_eq_zero_iff (a b : Nat) :
    a &&& b = 0 ↔ ∀ i, a.testBit i = false ∨ b.testBit i = false := by
  constructor
  · intro h i
    have hb := congrArg (fun n => n.testBit i) h
    simp only [Nat.testBit_land, Nat.zero_testBit] at hb
    cases ha : a.testBit i with
    | false => exact Or.inl rfl
    | true => rw [ha] at hb; simp at hb; exact Or.inr hb
  · intro h
    apply Nat.eq_of_testBit_eq
    intro i
    simp only [Nat.testBit_land, Nat.zero_testBit]
    rcases h i with h1 | h1 <;> simp [h1]

theorem testBit_eq_of_lt_64 (a : Nat) (ha : a < 2 ^ 64) (j : Nat) (hj : 64 ≤ j) :
    a.testBit j = false :=
  Nat.testBit_lt_two_pow (lt_of_lt_of_le ha (Nat.pow_le_pow_right (by norm_num) hj))

theorem c1_iff_high_bits (a b : Nat) :
    ((a ^^^ b) &&& not64 TYPE_DEPS_MASK = 0 ↔
     ∀ j, 56 ≤ j → j < 64 → a.testBit j = b.testBit j) := by
  rw [land_eq_zero_iff]
  constructor
  · intro h j hj1 hj2
    rcases h j with h1 | h1
    · rw [Nat.testBit_xor] at h1
      revert h1
      cases a.testBit j <;> cases b.testBit j <;> simp
    · rw [testBit_not64, testBit_deps_mask] at h1
      simp [(show ¬ j < 56 by omega), hj2] at h1
  · intro h j
    by_cases hj1 : j < 56
    · right
      rw [testBit_not64, testBit_deps_mask]
      simp [hj1, (show j < 64 by omega)]
    · by_cases hj2 : j < 64
      · left
        rw [Nat.testBit_xor, h j (by omega) hj2]
        cases b.testBit j <;> simp
      · right
        rw [testBit_not64, testBit_deps_mask]
        simp [hj1, hj2]

theorem shiftRight_56_eq_iff (a b : Nat) (ha : a < 2 ^ 64) (hb : b < 2 ^ 64) :
    (a >>> 56 = b >>> 56 ↔ ∀ j, 56 ≤ j → j < 64 → a.testBit j = b.testBit j) := by
  constructor
  · intro h j hj1 hj2
    have := congrArg (fun n => n.testBit (j - 56)) h
    simp only [Nat.testBit_shiftRight] at this
    rwa [(by omega : 56 + (j - 56) = j)] at this
  · intro h
    apply Nat.eq_of_testBit_eq
    intro i
    simp only [Nat.testBit_shiftRight]
    by_cases hi : 56 + i < 64
    · exact h (56 + i) (by omega) hi
    · rw [testBit_eq_of_lt_64 a ha (56 + i) (by omega),
          testBit_eq_of_lt_64 b hb (56 + i) (by omega)]

theorem c2_iff_sort_bits (a b : Nat) :
    ((a ^^^ b) &&& not64 TYPE_BOUND_MASK &&& not64 TYPE_DEPS_MASK = 0 ↔
     ∀ j, 56 ≤ j → j < 63 → a.testBit j = b.testBit j) := by
  rw [land_eq_zero_iff]
  constructor
  · intro h j hj1 hj2
    rcases h j with h1 | h1
    · rw [Nat.testBit_land, Nat.testBit_xor, testBit_not64, testBit_bound_mask] at h1
      simp [(show ¬ 63 = j by omega), (show j < 64 by omega)] at h1
      revert h1
      cases a.testBit j <;> cases b.testBit j <;> simp
    · rw [testBit_not64, testBit_deps_mask] at h1
      simp [(show ¬ j < 56 by omega), (show j < 64 by omega)] at h1
  · intro h j
    by_cases hj1 : j < 56
    · right
      rw [testBit_not64, testBit_deps_mask]
      simp [hj1, (show j < 64 by omega)]
    · by_cases hj3 : j = 63
      · left
        subst hj3
        rw [Nat.testBit_land, testBit_not64, testBit_bound_mask]
        simp
      · by_cases hj2 : j < 64
        · left
          rw [Nat.testBit_land, Nat.testBit_xor, h j (by omega) (by omega)]
          cases b.testBit j <;> simp
        · right
          rw [testBit_not64, testBit_deps_mask]
          simp [hj1, hj2]

theorem sort_field_eq_iff (a b : Nat) :
    ((a >>> 56) &&& 0x7F = (b >>> 56) &&& 0x7F ↔
     ∀ j, 56 ≤ j → j < 63 → a.testBit j = b.testBit j) := by
  have h7F : ∀ x : Nat, Nat.testBit 0x7F x = decide (x < 7) := by
    intro x
    rw [(by norm_num : (0x7F : Nat) = 2 ^ 7 - 1), Nat.testBit_two_pow_sub_one]
  constructor
  · intro h j hj1 hj2
    have := congrArg (fun n => n.testBit (j - 56)) h
    simp only [Nat.testBit_land, Nat.testBit_shiftRight, h7F] at this
    rw [(by omega : 56 + (j - 56) = j)] at this
    simpa [(by omega : j - 56 < 7)] using this
  · intro h
    apply Nat.eq_of_testBit_eq
    intro i
    simp only [Nat.testBit_land, Nat.testBit_shiftRight, h7F]
    by_cases hi : i < 7
    · rw [h (56 + i) (by omega) (by omega)]
    · simp [hi]

/-- Claim C4 (amended): `sorts_compatible(from, to)` returns true iff
either (a) the two types agree on ALL non-dependency bits — the sort
field and the bound flag — regardless of their dependency masks, or
(b) they agree on the non-dependency, non-bound-flag bits (the sort
field) and `from` is itself a bound variable.  In particular, for a
non-bound type `t`, `sorts_compatible t t2` holds iff `t` and `t2` have
identical high (non-dependency) bits, regardless of their dependency
masks — not the other way around. -/
theorem sorts_compatible_characterization :
    ∀ (f t : Ty), f.inner < 2 ^ 64 → t.inner < 2 ^ 64 →
    (sorts_compatible f t = true ↔
       (f.inner >>> 56 = t.inner >>> 56 ∨
        ((f.inner >>> 56) &&& 0x7F = (t.inner >>> 56) &&& 0x7F ∧
         f.is_bound = true))) ∧
    (f.is_bound = false →
       (sorts_compatible f t = true ↔ f.inner >>> 56 = t.inner >>> 56)) := by
  intro f t hf ht
  have hmain : sorts_compatible f t = true ↔
      (f.inner >>> 56 = t.inner >>> 56 ∨
       ((f.inner >>> 56) &&& 0x7F = (t.inner >>> 56) &&& 0x7F ∧
        f.is_bound = true)) := by
    unfold sorts_compatible
    simp only [Bool.or_eq_true, Bool.and_eq_true, beq_iff_eq, bne_iff_ne, ne_eq]
    constructor
    · rintro (h1 | ⟨h2, h3⟩)
      · exact Or.inl ((shiftRight_56_eq_iff _ _ hf ht).mpr
          ((c1_iff_high_bits _ _).mp h1))
      · refine Or.inr ⟨(sort_field_eq_iff _ _).mpr
          ((c2_iff_sort_bits _ _).mp h2), ?_⟩
        rw [Ty.is_bound]
        exact bne_iff_ne.mpr h3
    · rintro (h1 | ⟨h2, h3⟩)
      · exact Or.inl ((c1_iff_high_bits _ _).mpr
          ((shiftRight_56_eq_iff _ _ hf ht).mp h1))
      · refine Or.inr ⟨(c2_iff_sort_bits _ _).mpr
          ((sort_field_eq_iff _ _).mp h2), ?_⟩
        rw [Ty.is_bound] at h3
        exact bne_iff_ne.mp h3
  refine ⟨hmain, fun hnb => ?_⟩
  rw [hmain]
  constructor
  · rintro (h | ⟨_, hb⟩)
    · exact h
    · rw [hnb] at hb; cases hb
  · exact Or.inl

theorem sorts_compatible_characterization_witness :
    ((sorts_compatible ⟨2 ^ 63⟩ ⟨5⟩ = true ↔
       ((Ty.mk (2 ^ 63)).inner >>> 56 = (Ty.mk 5).inner >>> 56 ∨
        (((Ty.mk (2 ^ 63)).inner >>> 56) &&& 0x7F
            = ((Ty.mk 5).inner >>> 56) &&& 0x7F ∧
         (Ty.mk (2 ^ 63)).is_bound = true))) ∧
     ((Ty.mk (2 ^ 63)).is_bound = false →
       (sorts_compatible ⟨2 ^ 63⟩ ⟨5⟩ = true ↔
        (Ty.mk (2 ^ 63)).inner >>> 56 = (Ty.mk 5).inner >>> 56))) :=
  sorts_compatible_characterization ⟨2 ^ 63⟩ ⟨5⟩ (by norm_num) (by norm_num)

/-- Claim C4 counterexample: the claimed form "(a) the dependency-mask
bits are identical" and the claimed equivalence "for non-bound t,
compatible iff identical dependency masks regardless of unrelated high
bits" both fail on the code: `Ty 0` and `Ty (2 ^ 56)` are non-bound with
identical (zero) dependency masks yet incompatible (their sort bits
differ), while `Ty 0` and `Ty 1` have different dependency masks yet are
compatible. -/
theorem sorts_compatible_not_deps_identity :
    (Ty.mk 0).is_bound = false ∧
    (Ty.mk 0).inner &&& TYPE_DEPS_MASK = (Ty.mk (2 ^ 56)).inner &&& TYPE_DEPS_MASK ∧
    sorts_compatible (Ty.mk 0) (Ty.mk (2 ^ 56)) = false ∧
    sorts_compatible (Ty.mk 0) (Ty.mk 1) = true ∧
    (Ty.mk 0).inner &&& TYPE_DEPS_MASK ≠ (Ty.mk 1).inner &&& TYPE_DEPS_MASK :=
  ⟨rfl, rfl, rfl, rfl, by decide⟩
